import Mathlib

/-!
Verification of the folder-readme structure pipeline (`src/App.tsx`):
a shallow embedding of the path → tree → rendered-text pipeline
(`buildTree`, `removeKeyRecursively`, `treeToString`, the filtering,
preview-truncation and markdown assembly inside `handlePreview` and
`handleGenerateReadme`), together with theorems settling the spec's
claims about it.

A tree node is embedded as an association list kept in JavaScript's
own-property enumeration order (the order `Object.keys` and `for...in`
report): canonical array-index keys ascending by numeric value first,
then the remaining keys in first-creation order.  Insertion maintains
this order, so the stored order is exactly the order the program
observes.  `path.split('/')` and `lines.join('\n')` with
single-character separators are embedded at the `List Char` level
(`jsSplit`, `jsJoin`), which agrees with JavaScript's semantics for
one-character separator strings.

The model treats every path segment as an ordinary own key of a plain
dictionary.  Segments that collide with inherited `Object.prototype`
property names are outside it: on such a segment (for example
`__proto__`) the real program's `node[part]` lookup hits a truthy
inherited value, so the walk escapes the tree into `Object.prototype`
and can even throw a `TypeError` when it then assigns `__proto__`
there.  That behaviour is a defect of the program's object-as-dictionary
representation and is analysed as such rather than modelled.
-/

namespace FolderReadme

/-- Embedding of JavaScript `s.split(c)` for a one-character separator:
splits on every occurrence of `c`; `"".split(c) = [""]`. -/
def jsSplit (c : Char) (s : String) : List String :=
  (s.data.splitOn c).map String.mk

/-- Embedding of JavaScript `lines.join(c)` for a one-character separator. -/
def jsJoin (c : Char) (lines : List String) : String :=
  String.mk (List.intercalate [c] (lines.map String.data))

/-- The directory tree built by `buildTree`: each node maps segment names to
child nodes.  The children list is kept in JavaScript own-property
enumeration order — canonical array-index keys ascending by numeric value,
then the other keys in creation order. -/
inductive TreeNode where
  | node : List (String × TreeNode) → TreeNode

/-- The children mapping of a node. -/
def TreeNode.children : TreeNode → List (String × TreeNode)
  | TreeNode.node cs => cs

/-- The keys of a children mapping in stored order; children lists are
maintained in JavaScript own-property enumeration order, so this is
`Object.keys`. -/
def keysOf (cs : List (String × TreeNode)) : List String :=
  cs.map Prod.fst

/-- Decimal value of a digit string (for array-index ordering). -/
def digitsToNat (l : List Char) : Nat :=
  l.foldl (fun acc c => 10 * acc + (c.toNat - 48)) 0

/-- Whether a key is a canonical array index in the JavaScript sense: `"0"`,
or digits without a leading zero whose value is below `2^32 - 1`.
JavaScript objects enumerate such own keys in ascending numeric order before
every other string key, regardless of creation order. -/
def isArrayIndex (s : String) : Bool :=
  match s.data with
  | [] => false
  | c :: cs =>
    if c = '0' then cs.isEmpty
    else c.isDigit && cs.all (fun d => d.isDigit)
      && decide (digitsToNat (c :: cs) < 4294967295)

/-- The `if (!node[part]) node[part] = {}` step of `buildTree` (App.tsx 33-37)
on one level's children mapping: apply `ins` (the walk over the remaining
segments) to the existing entry for `seg` when present — keeping its
position — and otherwise to a fresh empty node placed where JavaScript puts
the new own property in enumeration order.  Because the list is maintained
in enumeration order (array-index keys first, ascending; then the other
keys in creation order), a new array-index key enters at its numeric
position inside the index prefix and every other new key is appended at the
end. -/
def childInsert (ins : TreeNode → TreeNode) :
    List (String × TreeNode) → String → List (String × TreeNode)
  | [], seg => [(seg, ins (TreeNode.node []))]
  | (key, v) :: cs, seg =>
    if key = seg then (key, ins v) :: cs
    else if isArrayIndex seg
        && (!(isArrayIndex key) || decide (digitsToNat seg.data < digitsToNat key.data)) then
      (seg, ins (TreeNode.node [])) :: (key, v) :: cs
    else (key, v) :: childInsert ins cs seg

/-- One `forEach(part => ...)` walk of `buildTree` (App.tsx 30-38): walk the
segments in order, creating an empty child the first time a segment is seen
at that level and descending into it. -/
def treeInsert : TreeNode → List String → TreeNode
  | t, [] => t
  | TreeNode.node cs, seg :: rest =>
    TreeNode.node (childInsert (fun sub => treeInsert sub rest) cs seg)

/-- `buildTree` (App.tsx 28-41): fold every path's `/`-split segments into
the tree, starting from the empty root node. -/
def buildTree (filePaths : List String) : TreeNode :=
  filePaths.foldl (fun t p => treeInsert t (jsSplit '/' p)) (TreeNode.node [])

mutual

/-- `removeKeyRecursively` (App.tsx 44-52), as a pure function: remove every
key equal to `keyToRemove` at every depth; a removed subtree is dropped
whole (the code does not descend into it). -/
def removeKey : TreeNode → String → TreeNode
  | TreeNode.node cs, keyToRemove => TreeNode.node (removeKeyList cs keyToRemove)

/-- The `for (const key in obj)` loop of `removeKeyRecursively`: drop a
matching entry, otherwise recurse into its child. -/
def removeKeyList : List (String × TreeNode) → String → List (String × TreeNode)
  | [], _ => []
  | (key, v) :: cs, keyToRemove =>
    if key = keyToRemove then removeKeyList cs keyToRemove
    else (key, removeKey v keyToRemove) :: removeKeyList cs keyToRemove

end

mutual

/-- `treeToString` (App.tsx 55-69): one line `indent + connector + key` per
key, `└── ` for the last sibling and `├── ` otherwise, the child's lines
(rendered with the deeper indent) appended right after its own line. -/
def treeToString : TreeNode → String → List String
  | TreeNode.node cs, indent => treeToStringList cs indent

/-- The `keys.forEach((key, index) => ...)` loop of `treeToString`; the
stored children order is the `Object.keys` order, and a later sibling
exists exactly when the remaining list is nonempty. -/
def treeToStringList : List (String × TreeNode) → String → List String
  | [], _ => []
  | (key, child) :: rest, indent =>
    let isLast := rest.isEmpty
    let pfx := if isLast then indent ++ "└── " else indent ++ "├── "
    let childLines :=
      if (TreeNode.children child).length > 0 then
        treeToString child (indent ++ (if isLast then "    " else "│   "))
      else []
    (pfx ++ key) :: (childLines ++ treeToStringList rest indent)

end

/-- The three names `handlePreview` always adds to the ignore set
(App.tsx 134-137). -/
def builtinIgnoreNames : List String :=
  ["node_modules", ".git", ".DS_Store"]

/-- `relPath.split('/')[0]` (App.tsx 152): the first `/`-separated segment. -/
def firstSegment (path : String) : String :=
  (jsSplit '/' path).headD ""

/-- The full ignore set of one run: the user-supplied root names together
with the three built-ins (App.tsx 124-137). -/
def ignoreUnion (userIgnores : List String) : List String :=
  userIgnores ++ builtinIgnoreNames

/-- The filtering loop of `handlePreview` (App.tsx 149-161): keep a path
exactly when its first segment is not in the ignore set, in input order. -/
def filterPaths (paths : List String) (userIgnores : List String) : List String :=
  paths.filter (fun p => !((ignoreUnion userIgnores).contains (firstSegment p)))

/-- Build-and-prune step of `handlePreview` (App.tsx 164-167): build the
tree from the filtered paths, then prune each built-in name once. -/
def prunedTree (paths : List String) (userIgnores : List String) : TreeNode :=
  removeKey (removeKey (removeKey (buildTree (filterPaths paths userIgnores))
    "node_modules") ".git") ".DS_Store"

/-- `structureLines` (App.tsx 169-171): the root folder name as a synthetic
first line, then the rendered tree with empty indent. -/
def structureLines (paths : List String) (userIgnores : List String)
    (rootFolder : String) : List String :=
  rootFolder :: treeToString (prunedTree paths userIgnores) ""

/-- `structureText` (App.tsx 172): the structure lines joined by newline. -/
def structureText (paths : List String) (userIgnores : List String)
    (rootFolder : String) : String :=
  jsJoin '\n' (structureLines paths userIgnores rootFolder)

/-- Preview assembly (App.tsx 176-180): split on newline, keep the first 100
lines, and append the truncation notice when more than 100 lines exist. -/
def previewOf (text : String) : String :=
  let lines := jsSplit '\n' text
  let preview := jsJoin '\n' (lines.take 100)
  if lines.length > 100 then
    preview ++ "\n... (truncated, total " ++ toString lines.length ++ " lines)"
  else preview

/-- `handlePreview` (App.tsx 112-184) as a function of the input snapshot:
errors on an empty path list, otherwise returns the full structure text
(kept untruncated) and the preview derived from it; the root folder name is
the first segment of the first path (App.tsx 119-120). -/
def handlePreview (paths : List String) (userIgnores : List String) :
    Except String (String × String) :=
  if paths.isEmpty then
    Except.error "Please select a project folder."
  else
    let rootFolder := firstSegment (paths.headD "")
    let text := structureText paths userIgnores rootFolder
    Except.ok (text, previewOf text)

/-- `readmeContent` (App.tsx 193): the fixed markdown template around the
full structure text. -/
def readmeContent (structText : String) : String :=
  "# Project File and Folder Structure\n\nBelow is the structure of the project:\n\n```\n"
    ++ structText ++ "\n```"

/-! ### Library lemmas about the split / join embedding -/

/-- Splitting never yields the empty list of parts. -/
theorem jsSplit_ne_nil (c : Char) (s : String) : jsSplit c s ≠ [] := by
  simp [jsSplit, List.splitOnP_ne_nil, List.splitOn]

/-- `join(c)` is a left inverse of `split(c)`. -/
theorem jsJoin_jsSplit (c : Char) (s : String) : jsJoin c (jsSplit c s) = s := by
  simp only [jsJoin, jsSplit, List.map_map]
  have : (String.data ∘ String.mk) = id := by funext l; rfl
  rw [this, List.map_id, List.intercalate_splitOn]

/-- `split(c)` is a left inverse of `join(c)` on nonempty line lists whose
lines do not contain the separator. -/
theorem jsSplit_jsJoin (c : Char) (lines : List String)
    (hx : ∀ l ∈ lines, c ∉ l.data) (hls : lines ≠ []) :
    jsSplit c (jsJoin c lines) = lines := by
  simp only [jsJoin, jsSplit]
  rw [List.splitOn_intercalate (lines.map String.data) c ?hx ?hls]
  · simp only [List.map_map]
    have : (String.mk ∘ String.data) = id := by funext l; cases l; rfl
    rw [this, List.map_id]
  · intro l hl
    obtain ⟨s, hs, rfl⟩ := List.mem_map.mp hl
    exact hx s hs
  · simpa using hls

/-- Splitting distributes over an explicit occurrence of the separator. -/
theorem splitOn_append_cons {α : Type} [DecidableEq α] (c : α) (a b : List α) :
    (a ++ c :: b).splitOn c = a.splitOn c ++ b.splitOn c := by
  induction a with
  | nil => simp [List.splitOn]
  | cons x xs ih =>
    simp only [List.cons_append, List.splitOn, List.splitOnP_cons] at ih ⊢
    by_cases h : x = c
    · simp [h, ih]
    · have hne : (x == c) = false := by simp [h]
      simp only [hne, Bool.false_eq_true, if_false, ih]
      obtain ⟨h0, t0, he⟩ := List.exists_cons_of_ne_nil (List.splitOnP_ne_nil (· == c) xs)
      rw [he]
      simp [List.modifyHead]

theorem jsSplit_append (c : Char) (a b : String) :
    jsSplit c (a ++ String.mk [c] ++ b) = jsSplit c a ++ jsSplit c b := by
  simp only [jsSplit]
  have hdata : (a ++ String.mk [c] ++ b).data = a.data ++ c :: b.data := by
    simp [String.data_append]
  rw [hdata, splitOn_append_cons, List.map_append]

mutual

def hasKey : TreeNode → String → Bool
  | TreeNode.node cs, k => hasKeyList cs k

def hasKeyList : List (String × TreeNode) → String → Bool
  | [], _ => false
  | (key, v) :: cs, k => key == k || hasKey v k || hasKeyList cs k

end

theorem hasKeyList_removeKeyList_self :
    ∀ (cs : List (String × TreeNode)) (k : String),
      hasKeyList (removeKeyList cs k) k = false
  | [], _ => rfl
  | (key, TreeNode.node vcs) :: cs', k => by
    by_cases h : key = k
    · simp only [removeKeyList, if_pos h]
      exact hasKeyList_removeKeyList_self cs' k
    · simp only [removeKeyList, if_neg h, removeKey, hasKeyList, hasKey]
      simp [h, hasKeyList_removeKeyList_self vcs k, hasKeyList_removeKeyList_self cs' k]

theorem hasKeyList_removeKeyList_of_not :
    ∀ (cs : List (String × TreeNode)) (kk k : String),
      hasKeyList cs k = false → hasKeyList (removeKeyList cs kk) k = false
  | [], _, _ => by intro _; rfl
  | (key, TreeNode.node vcs) :: cs', kk, k => by
    intro h
    simp only [hasKeyList, hasKey, Bool.or_eq_false_iff] at h
    obtain ⟨⟨h1, h2⟩, h3⟩ := h
    by_cases hk : key = kk
    · simp only [removeKeyList, if_pos hk]
      exact hasKeyList_removeKeyList_of_not cs' kk k h3
    · simp only [removeKeyList, if_neg hk, hasKeyList, hasKey, removeKey]
      simp [h1, hasKeyList_removeKeyList_of_not vcs kk k h2,
        hasKeyList_removeKeyList_of_not cs' kk k h3]

theorem hasKey_removeKey_self (t : TreeNode) (k : String) :
    hasKey (removeKey t k) k = false := by
  cases t with
  | node cs => exact hasKeyList_removeKeyList_self cs k

theorem hasKey_removeKey_of_not (t : TreeNode) (kk k : String)
    (h : hasKey t k = false) : hasKey (removeKey t kk) k = false := by
  cases t with
  | node cs => exact hasKeyList_removeKeyList_of_not cs kk k h

/-- The effect of one `buildTree` insertion step on `Object.keys` of a
children mapping: an existing key leaves the key list unchanged; a new
canonical array-index key enters at its ascending numeric position within
the index prefix; every other new key is appended at the end. -/
def jsInsertKey (ks : List String) (seg : String) : List String :=
  match ks with
  | [] => [seg]
  | key :: ks' =>
    if key = seg then key :: ks'
    else if isArrayIndex seg
        && (!(isArrayIndex key) || decide (digitsToNat seg.data < digitsToNat key.data)) then
      seg :: key :: ks'
    else key :: jsInsertKey ks' seg

theorem keysOf_childInsert (ins : TreeNode → TreeNode)
    (cs : List (String × TreeNode)) (seg : String) :
    keysOf (childInsert ins cs seg) = jsInsertKey (keysOf cs) seg := by
  induction cs with
  | nil => rfl
  | cons hd cs ih =>
    obtain ⟨key, v⟩ := hd
    by_cases h : key = seg
    · simp [childInsert, jsInsertKey, keysOf, h]
    · by_cases hidx : (isArrayIndex seg
          && (!(isArrayIndex key)
            || decide (digitsToNat seg.data < digitsToNat key.data))) = true
      · simp [childInsert, jsInsertKey, keysOf, h, hidx]
      · simp only [Bool.not_eq_true] at hidx
        simp only [keysOf] at ih
        simp [childInsert, jsInsertKey, keysOf, h, hidx, ih]

theorem keysOf_children_treeInsert (t : TreeNode) (seg : String) (rest : List String) :
    keysOf (TreeNode.children (treeInsert t (seg :: rest)))
      = jsInsertKey (keysOf (TreeNode.children t)) seg := by
  cases t with
  | node cs => exact keysOf_childInsert _ cs seg

theorem keysOf_children_foldl (ps : List String) (t : TreeNode) :
    keysOf (TreeNode.children (ps.foldl (fun t p => treeInsert t (jsSplit '/' p)) t))
      = (ps.map firstSegment).foldl jsInsertKey (keysOf (TreeNode.children t)) := by
  induction ps generalizing t with
  | nil => rfl
  | cons p ps ih =>
    obtain ⟨h, tl, heq⟩ := List.exists_cons_of_ne_nil (jsSplit_ne_nil '/' p)
    have hfs : firstSegment p = h := by simp [firstSegment, heq]
    simp only [List.foldl_cons, List.map_cons, hfs, ih, heq,
      keysOf_children_treeInsert]

/-- The top-level keys of the built tree are the first segments of the paths,
accumulated through the `Object.keys` insertion step. -/
theorem keysOf_buildTree (ps : List String) :
    keysOf (TreeNode.children (buildTree ps))
      = (ps.map firstSegment).foldl jsInsertKey [] :=
  keysOf_children_foldl ps (TreeNode.node [])

/-- For a key that is not a canonical array index, one insertion step either
leaves the key list unchanged (key already present) or appends the new key
at the end: creation order is preserved for ordinary names. -/
theorem jsInsertKey_of_not_index (ks : List String) (seg : String)
    (h : isArrayIndex seg = false) :
    jsInsertKey ks seg = if seg ∈ ks then ks else ks ++ [seg] := by
  induction ks with
  | nil => simp [jsInsertKey]
  | cons key ks ih =>
    by_cases hk : key = seg
    · simp [jsInsertKey, hk]
    · have hmem : (seg ∈ key :: ks) ↔ (seg ∈ ks) := by
        constructor
        · intro hh
          rcases List.mem_cons.mp hh with hh | hh
          · exact absurd hh.symm hk
          · exact hh
        · exact List.mem_cons_of_mem _
      by_cases hm : seg ∈ ks
      · simp [jsInsertKey, hk, h, ih, hm, hmem]
      · simp [jsInsertKey, hk, h, ih, hm, hmem]

mutual

/-- Modelled on the spec's wording of the renderer (section 4.4): for the key
at position `i` of `n` siblings emit `indent + connector + key` with
connector `└── ` exactly when `i = n-1`; when the child has keys of its own,
recursively render it under the deepened indent, appending its lines before
the next sibling. -/
def renderTreeSpec : TreeNode → String → List String
  | TreeNode.node cs, indent => renderSiblings cs.length 0 cs indent

/-- The sibling loop of `renderTreeSpec`: `n` is the sibling count, `i` the
position of the current head. -/
def renderSiblings : Nat → Nat → List (String × TreeNode) → String → List String
  | _, _, [], _ => []
  | n, i, (key, child) :: rest, indent =>
    let connector := if i = n - 1 then "└── " else "├── "
    let childLines :=
      if (TreeNode.children child).isEmpty then []
      else renderTreeSpec child (indent ++ (if i = n - 1 then "    " else "│   "))
    (indent ++ connector ++ key) :: (childLines ++ renderSiblings n (i + 1) rest indent)

end

theorem treeToStringList_eq_renderSiblings :
    ∀ (cs : List (String × TreeNode)) (i : Nat) (indent : String),
      treeToStringList cs indent = renderSiblings (i + cs.length) i cs indent
  | [], _, _ => rfl
  | (key, TreeNode.node ccs) :: rest, i, indent => by
    have hlast : (i = i + (rest.length + 1) - 1) ↔ rest.isEmpty = true := by
      cases rest <;> simp [List.isEmpty]
    have hrec : treeToStringList rest indent
        = renderSiblings (i + (rest.length + 1)) (i + 1) rest indent := by
      rw [treeToStringList_eq_renderSiblings rest (i + 1) indent]
      congr 1
      omega
    simp only [treeToStringList, renderSiblings, List.length_cons]
    by_cases hre : rest.isEmpty = true
    · simp only [hre, if_true, if_pos (hlast.mpr hre)]
      cases ccs with
      | nil => simp [TreeNode.children, hrec]
      | cons c ccs' =>
        have hchild : treeToString (TreeNode.node (c :: ccs'))
              (indent ++ "    ")
            = renderTreeSpec (TreeNode.node (c :: ccs')) (indent ++ "    ") := by
          show treeToStringList (c :: ccs') (indent ++ "    ")
              = renderSiblings (c :: ccs').length 0 (c :: ccs') (indent ++ "    ")
          rw [treeToStringList_eq_renderSiblings (c :: ccs') 0 (indent ++ "    ")]
          congr 1
          omega
        simp [TreeNode.children, hrec, hchild, String.append_assoc]
    · simp only [hre, if_false, if_neg (fun hh => hre (hlast.mp hh))]
      cases ccs with
      | nil => simp [TreeNode.children, hrec]
      | cons c ccs' =>
        have hchild : treeToString (TreeNode.node (c :: ccs'))
              (indent ++ "│   ")
            = renderTreeSpec (TreeNode.node (c :: ccs')) (indent ++ "│   ") := by
          show treeToStringList (c :: ccs') (indent ++ "│   ")
              = renderSiblings (c :: ccs').length 0 (c :: ccs') (indent ++ "│   ")
          rw [treeToStringList_eq_renderSiblings (c :: ccs') 0 (indent ++ "│   ")]
          congr 1
          omega
        simp [TreeNode.children, hrec, hchild, String.append_assoc]

theorem treeToString_eq_renderTreeSpec (t : TreeNode) (indent : String) :
    treeToString t indent = renderTreeSpec t indent := by
  cases t with
  | node cs =>
    show treeToStringList cs indent = renderSiblings cs.length 0 cs indent
    rw [treeToStringList_eq_renderSiblings cs 0 indent]
    congr 1
    omega

theorem jsSplit_readmeContent (s : String) :
    jsSplit '\n' (readmeContent s)
      = ["# Project File and Folder Structure", "",
          "Below is the structure of the project:", "", "```"]
        ++ jsSplit '\n' s ++ ["```"] := by
  have hP : ("# Project File and Folder Structure\n\nBelow is the structure of the project:\n\n```\n" : String).data
      = ("# Project File and Folder Structure\n\nBelow is the structure of the project:\n\n```" : String).data
        ++ ['\n'] := by decide
  have hQ : ("\n```" : String).data = '\n' :: ("```" : String).data := by decide
  have h1 : (readmeContent s).data
      = ("# Project File and Folder Structure\n\nBelow is the structure of the project:\n\n```\n" : String).data
        ++ (s.data ++ ("\n```" : String).data) := by
    unfold readmeContent
    rw [String.data_append, String.data_append]
    simp [List.append_assoc]
  have hdata : (readmeContent s).data
      = ("# Project File and Folder Structure\n\nBelow is the structure of the project:\n\n```" : String).data
        ++ '\n' :: (s.data ++ '\n' :: ("```" : String).data) := by
    rw [h1, hP, hQ]
    simp
  have e1 : (List.splitOn '\n' ("# Project File and Folder Structure\n\nBelow is the structure of the project:\n\n```" : String).data).map String.mk
      = ["# Project File and Folder Structure", "",
          "Below is the structure of the project:", "", "```"] := by decide
  have e2 : (List.splitOn '\n' (("```" : String).data)).map String.mk = ["```"] := by decide
  simp only [jsSplit]
  rw [hdata]
  rw [splitOn_append_cons '\n' _ (s.data ++ '\n' :: ("```" : String).data)]
  rw [splitOn_append_cons '\n' s.data (("```" : String).data)]
  rw [List.map_append, List.map_append, e1, e2]
  simp [List.append_assoc]

theorem previewOf_of_le (text : String) (h : (jsSplit '\n' text).length ≤ 100) :
    previewOf text = text := by
  unfold previewOf
  rw [if_neg (by omega)]
  rw [List.take_of_length_le h]
  rw [jsJoin_jsSplit]

theorem jsJoin_singleton (c : Char) (s : String) : jsJoin c [s] = s := by
  show String.mk (List.intercalate [c] [s.data]) = s
  rw [show List.intercalate [c] [s.data] = s.data by simp [List.intercalate]]

theorem filterPaths_eq_nil (paths userIgnores : List String)
    (h : ∀ p ∈ paths, firstSegment p ∈ ignoreUnion userIgnores) :
    filterPaths paths userIgnores = [] := by
  unfold filterPaths
  rw [List.filter_eq_nil_iff]
  intro p hp
  simp [List.elem_iff, h p hp]

/-- C1, counterexample: on the spec's scenario input the pipeline does not
produce the five claimed lines, and the built tree's top-level node does
contain the root folder name "proj" as a key. -/
theorem claim_C1_counterexample :
    ¬ (structureLines ["proj/src/index.ts", "proj/src/util.ts", "proj/README.md",
          "proj/node_modules/pkg/index.js"] [] "proj"
        = ["proj", "├── src", "│   ├── index.ts", "│   └── util.ts", "└── README.md"])
    ∧ "proj" ∈ keysOf (TreeNode.children (buildTree (filterPaths
        ["proj/src/index.ts", "proj/src/util.ts", "proj/README.md",
          "proj/node_modules/pkg/index.js"] []))) := by
  decide

/-- C1, amended: the pipeline on the scenario input produces six lines — the
prefixed root name followed by the rendered tree whose single top-level key
is again "proj" — because `buildTree` inserts every segment of each path,
including the shared root folder name. -/
theorem claim_C1 :
    structureLines ["proj/src/index.ts", "proj/src/util.ts", "proj/README.md",
        "proj/node_modules/pkg/index.js"] [] "proj"
      = ["proj", "└── proj", "    ├── src", "    │   ├── index.ts",
          "    │   └── util.ts", "    └── README.md"]
    ∧ structureText ["proj/src/index.ts", "proj/src/util.ts", "proj/README.md",
        "proj/node_modules/pkg/index.js"] [] "proj"
      = "proj\n└── proj\n    ├── src\n    │   ├── index.ts\n    │   └── util.ts\n    └── README.md"
    ∧ keysOf (TreeNode.children (buildTree (filterPaths
        ["proj/src/index.ts", "proj/src/util.ts", "proj/README.md",
          "proj/node_modules/pkg/index.js"] []))) = ["proj"] := by
  decide

/-- C2: the filter keeps exactly the paths whose first segment is outside
the union of the user ignore names and the three built-ins, in original
relative order (the filtered list is a sublist of the input). -/
theorem claim_C2 (paths userIgnores : List String) :
    (filterPaths paths userIgnores).Sublist paths
    ∧ (∀ p, p ∈ filterPaths paths userIgnores ↔
        p ∈ paths ∧ firstSegment p ∉ ignoreUnion userIgnores) := by
  constructor
  · exact List.filter_sublist _
  · intro p
    simp [filterPaths, List.mem_filter, List.elem_iff]

/-- C3: after the three pruning passes no key equal to any built-in ignore
name survives at any depth, and on the path "a/node_modules/b/c" the whole
`node_modules` subtree is absent from the rendered output. -/
theorem claim_C3 (paths userIgnores : List String) :
    (hasKey (prunedTree paths userIgnores) "node_modules" = false
      ∧ hasKey (prunedTree paths userIgnores) ".git" = false
      ∧ hasKey (prunedTree paths userIgnores) ".DS_Store" = false)
    ∧ treeToString (prunedTree ["a/node_modules/b/c"] []) "" = ["└── a"] := by
  refine ⟨⟨?_, ?_, ?_⟩, by decide⟩
  · exact hasKey_removeKey_of_not _ _ _
      (hasKey_removeKey_of_not _ _ _ (hasKey_removeKey_self _ _))
  · exact hasKey_removeKey_of_not _ _ _ (hasKey_removeKey_self _ _)
  · exact hasKey_removeKey_self _ _

/-- C4: the renderer agrees with the spec's position-indexed description
(`└── ` exactly for the last sibling, child lines appended under the
deepened indent before the next sibling), and a node with zero keys
contributes no lines. -/
theorem claim_C4 (t : TreeNode) (indent : String) :
    treeToString t indent = renderTreeSpec t indent
    ∧ treeToString (TreeNode.node []) indent = [] :=
  ⟨treeToString_eq_renderTreeSpec t indent, rfl⟩

/-- C5, counterexample: key enumeration order is not first-insertion order
for canonical array-index names — paths "a/10/f" then "a/2/f" render the
sibling "2" before "10", not in first-encounter order. -/
theorem claim_C5_counterexample :
    treeToString (prunedTree ["a/10/f", "a/2/f"] []) ""
      = ["└── a", "    ├── 2", "    │   └── f", "    └── 10", "        └── f"]
    ∧ ¬ (treeToString (prunedTree ["a/10/f", "a/2/f"] []) ""
      = ["└── a", "    ├── 10", "    │   └── f", "    └── 2", "        └── f"]) := by
  decide

/-- C5, amended: key enumeration order during rendering is the JavaScript
own-property order — the top-level keys of the built tree are the first
segments accumulated by `jsInsertKey` (array-index names ascending first,
then the others in first-insertion order), one insertion step follows
`jsInsertKey` at every level, a new non-array-index name is always appended
at the end, and "src/x.ts" supplied before "src/y.ts" renders x.ts first. -/
theorem claim_C5 (paths : List String) :
    keysOf (TreeNode.children (buildTree paths))
      = (paths.map firstSegment).foldl jsInsertKey []
    ∧ (∀ (ins : TreeNode → TreeNode) (cs : List (String × TreeNode)) (seg : String),
        keysOf (childInsert ins cs seg) = jsInsertKey (keysOf cs) seg)
    ∧ (∀ (ks : List String) (seg : String), isArrayIndex seg = false →
        jsInsertKey ks seg = if seg ∈ ks then ks else ks ++ [seg])
    ∧ structureLines ["src/x.ts", "src/y.ts"] [] "src"
        = ["src", "└── src", "    ├── x.ts", "    └── y.ts"] :=
  ⟨keysOf_buildTree paths,
    fun ins cs seg => keysOf_childInsert ins cs seg,
    fun ks seg h => jsInsertKey_of_not_index ks seg h, by decide⟩

/-- C6: the preview equals the full text when it has at most 100 lines and
otherwise equals the first 100 lines plus the truncation notice; a 150-line
structure yields exactly the first 100 lines plus
"... (truncated, total 150 lines)"; the full structure string returned by
`handlePreview` is the untruncated text. -/
theorem claim_C6 (text : String) (paths userIgnores : List String) :
    ((jsSplit '\n' text).length ≤ 100 → previewOf text = text)
    ∧ (100 < (jsSplit '\n' text).length →
        previewOf text
          = jsJoin '\n' ((jsSplit '\n' text).take 100)
            ++ "\n... (truncated, total "
            ++ toString (jsSplit '\n' text).length ++ " lines)")
    ∧ previewOf (jsJoin '\n' (List.replicate 150 "x"))
        = jsJoin '\n' (List.replicate 100 "x")
          ++ "\n... (truncated, total 150 lines)"
    ∧ (paths = [] ∨ handlePreview paths userIgnores
        = Except.ok (structureText paths userIgnores (firstSegment (paths.headD "")),
            previewOf (structureText paths userIgnores (firstSegment (paths.headD ""))))) := by
  refine ⟨previewOf_of_le text, ?_, ?_, ?_⟩
  · intro h
    unfold previewOf
    rw [if_pos h]
  · have hs : jsSplit '\n' (jsJoin '\n' (List.replicate 150 "x"))
        = List.replicate 150 "x" := by
      apply jsSplit_jsJoin
      · intro l hl
        rw [List.eq_of_mem_replicate hl]
        decide
      · simp
    unfold previewOf
    rw [hs]
    simp only [List.length_replicate, List.take_replicate]
    rw [if_pos (by omega)]
    rw [show min 100 150 = 100 from rfl]
    rw [show toString (150 : Nat) = "150" from by decide]
    rw [String.append_assoc, String.append_assoc]
    congr 1
  · rcases paths with _ | ⟨p, ps⟩
    · exact Or.inl rfl
    · exact Or.inr rfl

/-- C7, counterexample: a structure text produced by the pipeline (input
path "```") puts three fence lines into the generated document, not two. -/
theorem claim_C7_counterexample :
    List.count "```"
        (jsSplit '\n' (readmeContent (structureText ["```"] [] (firstSegment "```")))) = 3
    ∧ ¬ (List.count "```"
        (jsSplit '\n' (readmeContent (structureText ["```"] [] (firstSegment "```")))) = 2) := by
  decide

/-- C7, amended: for every structure text none of whose lines is a bare
fence line, the markdown document contains exactly two fence lines (one
opening, one closing) and opens with the literal heading. -/
theorem claim_C7 (structText : String)
    (h : ∀ l ∈ jsSplit '\n' structText, l ≠ "```") :
    List.count "```" (jsSplit '\n' (readmeContent structText)) = 2
    ∧ (jsSplit '\n' (readmeContent structText)).headD ""
        = "# Project File and Folder Structure" := by
  rw [jsSplit_readmeContent]
  constructor
  · rw [List.count_append, List.count_append]
    have h0 : List.count "```" (jsSplit '\n' structText) = 0 :=
      List.count_eq_zero.mpr (fun hmem => h _ hmem rfl)
    rw [h0]
    decide
  · rfl

/-- C7 witness at the one-line structure text "a". -/
theorem claim_C7_witness :
    List.count "```" (jsSplit '\n' (readmeContent "a")) = 2
    ∧ (jsSplit '\n' (readmeContent "a")).headD ""
        = "# Project File and Folder Structure" :=
  claim_C7 "a" (by decide)

/-- C10: a non-empty path list whose first segments are all ignored yields
no error, an empty filtered tree contributing no rendered lines, and a full
structure text equal to the root folder name from the first path. -/
theorem claim_C10 (paths userIgnores : List String)
    (hne : paths ≠ [])
    (hall : ∀ p ∈ paths, firstSegment p ∈ ignoreUnion userIgnores) :
    handlePreview paths userIgnores
      = Except.ok (firstSegment (paths.headD ""),
          previewOf (firstSegment (paths.headD "")))
    ∧ structureText paths userIgnores (firstSegment (paths.headD ""))
        = firstSegment (paths.headD "")
    ∧ treeToString (prunedTree paths userIgnores) "" = [] := by
  have hfil : filterPaths paths userIgnores = [] := filterPaths_eq_nil _ _ hall
  have htree : prunedTree paths userIgnores = TreeNode.node [] := by
    unfold prunedTree
    rw [hfil]
    rfl
  have hrender : treeToString (prunedTree paths userIgnores) "" = [] := by
    rw [htree]
    rfl
  have htext : structureText paths userIgnores (firstSegment (paths.headD ""))
      = firstSegment (paths.headD "") := by
    unfold structureText structureLines
    rw [hrender, jsJoin_singleton]
  refine ⟨?_, htext, hrender⟩
  rcases paths with _ | ⟨p, ps⟩
  · exact absurd rfl hne
  · simp only [handlePreview, List.isEmpty_cons, Bool.false_eq_true, if_false]
    rw [htext]

/-- C10 witness at the single fully-ignored path "node_modules/a.js". -/
theorem claim_C10_witness :
    handlePreview ["node_modules/a.js"] []
      = Except.ok (firstSegment (["node_modules/a.js"].headD ""),
          previewOf (firstSegment (["node_modules/a.js"].headD "")))
    ∧ structureText ["node_modules/a.js"] [] (firstSegment (["node_modules/a.js"].headD ""))
        = firstSegment (["node_modules/a.js"].headD "")
    ∧ treeToString (prunedTree ["node_modules/a.js"] []) "" = [] :=
  claim_C10 ["node_modules/a.js"] [] (by decide) (by decide)


end FolderReadme
